import Mathlib

/-!
Verification development for the `act` configuration binder.

The Go sources are shallowly embedded: pure helper functions become Lean
functions on `String` / `List Char`, the stateful adapter methods become
explicit state-passing functions, and fallible operations return
`Except`/`Option`.  External collaborators of the binder (the standard
flag-registration package, `net/url` parsing, RFC3339 time parsing and the
case-conversion utilities), which are outside this repository, are modelled
from the specification's description of their contracts; each such
definition is marked in its doc comment.
-/

set_option maxRecDepth 10000

/-! ## Character and list utilities -/

/-- Decimal digit test on a character, by code point. -/
def isDigitC (c : Char) : Bool := 48 ≤ c.toNat && c.toNat ≤ 57

/-- Numeric value of a decimal digit character. -/
def digitVal (c : Char) : Nat := c.toNat - 48

/-- Accumulate a base-10 natural number from digit characters. -/
def digitsToNat (ds : List Char) : Nat := ds.foldl (fun a c => 10 * a + digitVal c) 0

/-- Split a character list on a separator character (mirrors Go
`strings.Split` for a one-character separator): every separator occurrence
produces a boundary, and empty segments are kept. -/
def splitSepC (sep : Char) : List Char → List Char → List (List Char)
  | [], acc => [acc.reverse]
  | c :: cs, acc =>
    if c = sep then acc.reverse :: splitSepC sep cs []
    else splitSepC sep cs (c :: acc)

/-- Go `strings.Split(s, ",")`. -/
def splitComma (s : String) : List String := (splitSepC ',' s.data []).map String.mk

/-- Join strings with a separator (mirrors Go `strings.Join`). -/
def joinSep (sep : String) : List String → String
  | [] => ""
  | [x] => x
  | x :: xs => x ++ sep ++ joinSep sep xs

/-! ## `strconv` model

`strconv.Atoi` from the Go standard library (called by `IntSlice.Set` and
`parseInt` in the sources): an optional sign followed by at least one
decimal digit, rejecting anything else as a syntax error and rejecting
values outside the signed 64-bit range as a range error. -/

/-- Error text produced by `strconv.Atoi` for input `s`. -/
def atoiErr (s reason : String) : String :=
  "strconv.Atoi: parsing \"" ++ s ++ "\": " ++ reason

/-- Strip an optional leading sign, reporting whether it was a minus. -/
def splitSign : List Char → Bool × List Char
  | '-' :: r => (true, r)
  | '+' :: r => (false, r)
  | r => (false, r)

/-- `strconv.Atoi`: base-10 signed integer parsing over the 64-bit range. -/
def atoi (s : String) : Except String Int :=
  let (neg, ds) := splitSign s.data
  if ds.isEmpty then .error (atoiErr s "invalid syntax")
  else if ds.all isDigitC then
    let n : Int := (digitsToNat ds : Nat)
    let v : Int := if neg then -n else n
    if -(2 ^ 63) ≤ v ∧ v < 2 ^ 63 then .ok v
    else .error (atoiErr s "value out of range")
  else .error (atoiErr s "invalid syntax")

/-- Whether `atoi` rejects the token. -/
def atoiFails (v : String) : Bool :=
  match atoi v with
  | .error _ => true
  | .ok _ => false

/-! ## StringSlice adapter (source: StringSlice.Set / String / Get)

The Go value `StringSlice []string` is embedded as `List String`; a method
receiver `*StringSlice` that may be nil is embedded as `Option (List String)`.
-/

/-- `StringSlice.Set`: split the comma-separated text; empty input is a
no-op leaving the current value. -/
def StringSliceSet (f : List String) (s : String) : List String :=
  if s = "" then f else splitComma s

/-- `StringSlice.String`: render for display; safe on a nil receiver. -/
def StringSliceString : Option (List String) → String
  | none => ""
  | some l => if l.isEmpty then "[]" else "['" ++ joinSep "','" l ++ "']"

/-- `StringSlice.Get`. -/
def StringSliceGet (f : List String) : List String := f

/-! ## IntSlice adapter (source: IntSlice.Set / String / Get) -/

/-- The per-token loop of `IntSlice.Set`: parse each token, appending to the
accumulator; on the first failure discard everything and return the wrapped
parse error. -/
def intSliceLoop : List String → List Int → Option String × List Int
  | [], acc => (none, acc)
  | v :: vs, acc =>
    match atoi v with
    | .error e => (some ("parsing int: " ++ e), [])
    | .ok i => intSliceLoop vs (acc ++ [i])

/-- `IntSlice.Set`: empty input is a no-op; otherwise the list is first
reset and the comma-separated tokens are parsed in order. -/
def IntSliceSet (f : List Int) (s : String) : Option String × List Int :=
  if s = "" then (none, f) else intSliceLoop (splitComma s) []

/-- `IntSlice.String`: render for display; safe on a nil receiver. -/
def IntSliceString : Option (List Int) → String
  | none => ""
  | some l => if l.isEmpty then "[]" else "[" ++ joinSep "," (l.map toString) ++ "]"

/-- `IntSlice.Get`. -/
def IntSliceGet (f : List Int) : List Int := f

theorem intSliceLoop_first_fail (e : String) :
    ∀ (ts : List String) (acc : List Int) (t : String),
      ts.find? atoiFails = some t → atoi t = .error e →
      intSliceLoop ts acc = (some ("parsing int: " ++ e), []) := by
  intro ts
  induction ts with
  | nil => intro acc t h; simp [List.find?] at h
  | cons v vs ih =>
    intro acc t hfind he
    rw [List.find?] at hfind
    cases hv : atoiFails v with
    | true =>
      simp only [hv] at hfind
      cases hfind
      unfold atoiFails at hv
      unfold intSliceLoop
      cases hav : atoi v with
      | error e' => rw [hav] at he; cases he; rfl
      | ok i => rw [hav] at hv; simp at hv
    | false =>
      simp only [hv] at hfind
      unfold atoiFails at hv
      unfold intSliceLoop
      cases hav : atoi v with
      | error e' => rw [hav] at hv; simp at hv
      | ok i => exact ih (acc ++ [i]) t hfind he

/-- C4: a non-empty comma-separated input with an unparseable token makes
`IntSlice.Set` fail with an error naming that token, and leaves the list
empty (so `Get` returns the empty sequence). -/
theorem intSliceSet_error_empties (f : List Int) (s t e : String)
    (hs : s ≠ "")
    (hfind : (splitComma s).find? atoiFails = some t)
    (he : atoi t = .error e) :
    (IntSliceSet f s).1 = some ("parsing int: " ++ e) ∧
    (IntSliceSet f s).2 = [] ∧
    IntSliceGet (IntSliceSet f s).2 = [] := by
  unfold IntSliceSet
  rw [if_neg hs, intSliceLoop_first_fail e (splitComma s) [] t hfind he]
  exact ⟨rfl, rfl, rfl⟩

/-- Witness for C4 at the spec's example input, where the failing token is
"foo" and the error names it. -/
theorem intSliceSet_error_empties_witness :
    (IntSliceSet [5] "1,foo,2").1 =
      some ("parsing int: " ++ atoiErr "foo" "invalid syntax") ∧
    (IntSliceSet [5] "1,foo,2").2 = [] ∧
    IntSliceGet (IntSliceSet [5] "1,foo,2").2 = [] :=
  intSliceSet_error_empties [5] "1,foo,2" "foo" (atoiErr "foo" "invalid syntax")
    (by decide) (by decide) rfl

/-! ## URL adapter (source: URL.Set / String / Get)

The Go type `URL struct { *url.URL }` is embedded with the inner pointer as
`Option URLRec`; a possibly-nil method receiver adds one more `Option`
layer. -/

/-- The components of a parsed URL kept by this model. -/
structure URLRec where
  scheme : String
  host : String
  path : String
  rawQuery : String
deriving DecidableEq, Repr

/-- Hexadecimal digit test. -/
def isHexC (c : Char) : Bool :=
  isDigitC c || (97 ≤ c.toNat && c.toNat ≤ 102) || (65 ≤ c.toNat && c.toNat ≤ 70)

/-- ASCII letter test. -/
def isAlphaC (c : Char) : Bool :=
  (65 ≤ c.toNat && c.toNat ≤ 90) || (97 ≤ c.toNat && c.toNat ≤ 122)

/-- Every percent sign must begin a two-hex-digit escape. -/
def validEscapes : List Char → Bool
  | [] => true
  | c :: rest =>
    if c = '%' then
      match rest with
      | a :: b :: rest2 => isHexC a && isHexC b && validEscapes rest2
      | _ => false
    else validEscapes rest

/-- Split at the first occurrence of a separator, keeping the remainder. -/
def splitFirst (sep : Char) : List Char → List Char × Option (List Char)
  | [] => ([], none)
  | c :: cs =>
    if c = sep then ([], some cs)
    else
      let (a, b) := splitFirst sep cs
      (c :: a, b)

/-- Longest ASCII-letter prefix and the remainder. -/
def takeAlpha : List Char → List Char × List Char
  | [] => ([], [])
  | c :: cs =>
    if isAlphaC c then
      let (a, b) := takeAlpha cs
      (c :: a, b)
    else ([], c :: cs)

/-- Recognise a leading nonempty scheme followed by the literal "://". -/
def findSchemeSplit (cs : List Char) : Option (List Char × List Char) :=
  match takeAlpha cs with
  | ([], _) => none
  | (sch, rest) =>
    match rest with
    | ':' :: '/' :: '/' :: r => some (sch, r)
    | _ => none

/-- The authority part runs up to the first slash. -/
def splitHost : List Char → List Char × List Char
  | [] => ([], [])
  | c :: cs =>
    if c = '/' then ([], c :: cs)
    else
      let (h, p) := splitHost cs
      (c :: h, p)

/-- Modelled from the spec: the standard URL-parsing collaborator (Go
`net/url.Parse` is outside this repository).  The grammar covers scheme,
host, path and query; malformed input such as an unescaped percent sign
is an error. -/
def urlParse (s : String) : Except String URLRec :=
  if validEscapes s.data = false then
    .error ("parse \"" ++ s ++ "\": invalid URL escape")
  else
    let (beforeQ, q) := splitFirst '?' s.data
    let rawQuery := match q with | none => "" | some qc => String.mk qc
    match beforeQ with
    | '/' :: '/' :: rest =>
      let (h, p) := splitHost rest
      .ok ⟨"", String.mk h, String.mk p, rawQuery⟩
    | _ =>
      match findSchemeSplit beforeQ with
      | some (sch, rest) =>
        let (h, p) := splitHost rest
        .ok ⟨String.mk sch, String.mk h, String.mk p, rawQuery⟩
      | none => .ok ⟨"", "", String.mk beforeQ, rawQuery⟩

/-- Modelled from the spec: standard URL string form as rendered by the
collaborator's stringifier (the zero URL renders as the empty string). -/
def urlRender (u : URLRec) : String :=
  (if u.scheme = "" then "" else u.scheme ++ ":") ++
  (if u.host = "" then "" else "//" ++ u.host) ++
  u.path ++
  (if u.rawQuery = "" then "" else "?" ++ u.rawQuery)

/-- `URL.Set`: parse the text; on success replace the inner pointer with the
parsed URL, on failure return the wrapped error leaving the value as it
was. -/
def URLSet (f : Option URLRec) (s : String) : Option String × Option URLRec :=
  match urlParse s with
  | .error e => (some ("parsing url: " ++ e), f)
  | .ok u => (none, some u)

/-- `URL.String`: safe on a nil receiver and on a nil inner pointer. -/
def URLString : Option (Option URLRec) → String
  | none => ""
  | some none => ""
  | some (some u) => urlRender u

/-- Outcome of a Go expression that dereferences a possibly-nil pointer. -/
inductive GetRes (α : Type) where
  | val : α → GetRes α
  | nilDeref : GetRes α
deriving DecidableEq, Repr

/-- `URL.Get`: returns the inner value through an unguarded dereference of
the inner pointer. -/
def URLGet : Option URLRec → GetRes URLRec
  | none => .nilDeref
  | some u => .val u

example : urlParse "" = .ok ⟨"", "", "", ""⟩ := rfl
example : urlParse "foo.bar" = .ok ⟨"", "", "foo.bar", ""⟩ := rfl
example : urlParse "//foo.bar" = .ok ⟨"", "foo.bar", "", ""⟩ := rfl
example : urlParse "https://foo.bar/baz?qux=1" = .ok ⟨"https", "foo.bar", "/baz", "qux=1"⟩ := rfl
example : (urlParse "%").isOk = false := rfl
example : urlRender ⟨"https", "foo.bar", "/baz", "qux=1"⟩ = "https://foo.bar/baz?qux=1" := rfl

/-! ## Time adapter (source: Time.Set / String / Get)

The Go type `Time struct { *time.Time }` is embedded with the inner pointer
as `Option TimeRec`.  RFC3339 parsing and formatting belong to the `time`
collaborator outside this repository and are modelled from the spec: both
the exact-second and fractional-second sub-formats are accepted, and the
canonical string form carries no fractional seconds and writes a zero UTC
offset as "Z". -/

/-- The components of a parsed RFC3339 timestamp. -/
structure TimeRec where
  year : Nat
  month : Nat
  day : Nat
  hour : Nat
  minute : Nat
  second : Nat
  nanos : Nat
  offMin : Int
deriving DecidableEq, Repr

/-- Read exactly two decimal digits. -/
def read2 : List Char → Option (Nat × List Char)
  | c1 :: c2 :: rest =>
    if isDigitC c1 && isDigitC c2 then some (10 * digitVal c1 + digitVal c2, rest) else none
  | _ => none

/-- Read exactly four decimal digits. -/
def read4 : List Char → Option (Nat × List Char)
  | c1 :: c2 :: c3 :: c4 :: rest =>
    if isDigitC c1 && isDigitC c2 && isDigitC c3 && isDigitC c4 then
      some (1000 * digitVal c1 + 100 * digitVal c2 + 10 * digitVal c3 + digitVal c4, rest)
    else none
  | _ => none

/-- Expect one literal character. -/
def lit (c : Char) : List Char → Option (List Char)
  | c2 :: rest => if c2 = c then some rest else none
  | [] => none

/-- Nanoseconds denoted by a fraction-digit string (truncated at
nanosecond precision). -/
def nanosOf (ds : List Char) : Nat :=
  digitsToNat (ds.take 9) * 10 ^ (9 - min ds.length 9)

/-- Read the fractional-second digits after the dot. -/
def readFrac (cs : List Char) : Option (Nat × List Char) :=
  let ds := cs.takeWhile isDigitC
  if ds.isEmpty then none else some (nanosOf ds, cs.dropWhile isDigitC)

/-- Read the offset designator, which must end the string: "Z" or a signed
"hh:mm" pair, as minutes east of UTC. -/
def readOffset : List Char → Option Int
  | [] => none
  | c :: rest =>
    if c = 'Z' then (if rest = [] then some 0 else none)
    else if c = '+' || c = '-' then
      match read2 rest with
      | none => none
      | some (hh, rest2) =>
        match lit ':' rest2 with
        | none => none
        | some rest3 =>
          match read2 rest3 with
          | none => none
          | some (mm, rest4) =>
            if rest4 = [] ∧ hh ≤ 23 ∧ mm ≤ 59 then
              some (if c = '+' then ((hh * 60 + mm : Nat) : Int) else -((hh * 60 + mm : Nat) : Int))
            else none
    else none

/-- Length of a month, accounting for leap years. -/
def daysInMonth (y m : Nat) : Nat :=
  if m = 2 then (if y % 4 = 0 && (y % 100 ≠ 0 || y % 400 = 0) then 29 else 28)
  else if m = 4 || m = 6 || m = 9 || m = 11 then 30 else 31

/-- Validate the parsed fields and read the trailing offset. -/
def rfc3339Finish (y mo d h mi sec ns : Nat) (cs : List Char) : Option TimeRec :=
  match readOffset cs with
  | none => none
  | some off =>
    if 1 ≤ mo ∧ mo ≤ 12 ∧ 1 ≤ d ∧ d ≤ daysInMonth y mo ∧ h ≤ 23 ∧ mi ≤ 59 ∧ sec ≤ 59 then
      some ⟨y, mo, d, h, mi, sec, ns, off⟩
    else none

/-- Modelled from the spec: RFC3339-profile parsing by the `time`
collaborator, shaped "YYYY-MM-DDTHH:MM:SS", an optional fraction, and a
final offset designator. -/
def rfc3339ParseC (cs : List Char) : Option TimeRec :=
  match read4 cs with
  | none => none
  | some (y, cs1) =>
  match lit '-' cs1 with
  | none => none
  | some cs2 =>
  match read2 cs2 with
  | none => none
  | some (mo, cs3) =>
  match lit '-' cs3 with
  | none => none
  | some cs4 =>
  match read2 cs4 with
  | none => none
  | some (d, cs5) =>
  match lit 'T' cs5 with
  | none => none
  | some cs6 =>
  match read2 cs6 with
  | none => none
  | some (h, cs7) =>
  match lit ':' cs7 with
  | none => none
  | some cs8 =>
  match read2 cs8 with
  | none => none
  | some (mi, cs9) =>
  match lit ':' cs9 with
  | none => none
  | some cs10 =>
  match read2 cs10 with
  | none => none
  | some (sec, cs11) =>
  match cs11 with
  | [] => rfc3339Finish y mo d h mi sec 0 []
  | c :: csf =>
    if c = '.' then
      match readFrac csf with
      | none => none
      | some (ns, cs12) => rfc3339Finish y mo d h mi sec ns cs12
    else rfc3339Finish y mo d h mi sec 0 cs11

/-- RFC3339 parsing on strings. -/
def rfc3339Parse (s : String) : Option TimeRec := rfc3339ParseC s.data

/-- The character of one decimal digit value. -/
def padC (n : Nat) : Char := Char.ofNat (n + 48)

/-- Two-digit zero-padded decimal rendering. -/
def pad2 (n : Nat) : List Char := [padC (n / 10), padC (n % 10)]

/-- Four-digit zero-padded decimal rendering. -/
def pad4 (n : Nat) : List Char :=
  [padC (n / 1000 % 10), padC (n / 100 % 10), padC (n / 10 % 10), padC (n % 10)]

/-- Offset designator of the canonical form: "Z" for zero, otherwise a
signed "hh:mm". -/
def offsetChars (off : Int) : List Char :=
  if off = 0 then ['Z']
  else (if 0 < off then '+' else '-') :: (pad2 (off.natAbs / 60) ++ ':' :: pad2 (off.natAbs % 60))

/-- Modelled from the spec: the canonical RFC3339 string form, without
fractional seconds. -/
def rfc3339FormatC (t : TimeRec) : List Char :=
  pad4 t.year ++ '-' :: pad2 t.month ++ '-' :: pad2 t.day ++ 'T' :: pad2 t.hour ++
    ':' :: pad2 t.minute ++ ':' :: pad2 t.second ++ offsetChars t.offMin

/-- RFC3339 formatting on strings. -/
def rfc3339Format (t : TimeRec) : String := String.mk (rfc3339FormatC t)

/-- `Time.Set`: parse the text as RFC3339; on success point the inner
pointer at the parsed time, on failure return the wrapped error leaving the
value as it was. -/
def TimeSet (f : Option TimeRec) (s : String) : Option String × Option TimeRec :=
  match rfc3339Parse s with
  | none => (some ("parsing time: cannot parse \"" ++ s ++ "\" as RFC3339"), f)
  | some t => (none, some t)

/-- `Time.String`: safe on a nil receiver and on a nil inner pointer. -/
def TimeString : Option (Option TimeRec) → String
  | none => ""
  | some none => ""
  | some (some t) => rfc3339Format t

/-- `Time.Get`: returns the inner value through an unguarded dereference of
the inner pointer. -/
def TimeGet : Option TimeRec → GetRes TimeRec
  | none => .nilDeref
  | some t => .val t

example : rfc3339Parse "2002-10-02T15:00:00Z" = some ⟨2002, 10, 2, 15, 0, 0, 0, 0⟩ := rfl
example : rfc3339Parse "2002-10-02T15:00:00.05Z" = some ⟨2002, 10, 2, 15, 0, 0, 50000000, 0⟩ :=
  rfl
example : rfc3339Parse "2002-10-02T10:00:00-05:00" = some ⟨2002, 10, 2, 10, 0, 0, 0, -300⟩ := rfl
example : rfc3339Parse "" = none := rfl
example : rfc3339Format ⟨2002, 10, 2, 10, 0, 0, 0, -300⟩ = "2002-10-02T10:00:00-05:00" := rfl
example : rfc3339Format ⟨2002, 10, 2, 15, 0, 0, 50000000, 0⟩ = "2002-10-02T15:00:00Z" := rfl

/-! ## Round-trip lemmas for the RFC3339 model -/

theorem isDigitC_bounds {c : Char} (h : isDigitC c = true) : 48 ≤ c.toNat ∧ c.toNat ≤ 57 := by
  unfold isDigitC at h
  simp only [Bool.and_eq_true, decide_eq_true_eq] at h
  exact h

theorem padC_digitVal {c : Char} (h : isDigitC c = true) : padC (digitVal c) = c := by
  have hb := isDigitC_bounds h
  unfold padC digitVal
  rw [Nat.sub_add_cancel hb.1]
  exact Char.ofNat_toNat c

theorem digitVal_le {c : Char} (h : isDigitC c = true) : digitVal c ≤ 9 := by
  have hb := isDigitC_bounds h
  unfold digitVal
  omega

theorem padC_ne_Z {n : Nat} (h : n ≤ 9) : padC n ≠ 'Z' := by
  interval_cases n <;> decide

theorem read2_inv {cs rest : List Char} {v : Nat} (h : read2 cs = some (v, rest)) :
    v ≤ 99 ∧ cs = pad2 v ++ rest := by
  match cs with
  | [] => simp [read2] at h
  | [c1] => simp [read2] at h
  | c1 :: c2 :: t =>
    rw [read2] at h
    by_cases hd : (isDigitC c1 && isDigitC c2) = true
    · rw [if_pos hd] at h
      simp only [Option.some.injEq, Prod.mk.injEq] at h
      obtain ⟨hv, hr⟩ := h
      subst hv; subst hr
      rw [Bool.and_eq_true] at hd
      obtain ⟨h1, h2⟩ := hd
      have d1 := digitVal_le h1
      have d2 := digitVal_le h2
      refine ⟨by omega, ?_⟩
      unfold pad2
      have e1 : (10 * digitVal c1 + digitVal c2) / 10 = digitVal c1 := by omega
      have e2 : (10 * digitVal c1 + digitVal c2) % 10 = digitVal c2 := by omega
      rw [e1, e2, padC_digitVal h1, padC_digitVal h2]
      simp
    · rw [if_neg hd] at h
      exact absurd h (by simp)

theorem read4_inv {cs rest : List Char} {v : Nat} (h : read4 cs = some (v, rest)) :
    v ≤ 9999 ∧ cs = pad4 v ++ rest := by
  match cs with
  | [] => simp [read4] at h
  | [c1] => simp [read4] at h
  | [c1, c2] => simp [read4] at h
  | [c1, c2, c3] => simp [read4] at h
  | c1 :: c2 :: c3 :: c4 :: t =>
    rw [read4] at h
    by_cases hd : (isDigitC c1 && isDigitC c2 && isDigitC c3 && isDigitC c4) = true
    · rw [if_pos hd] at h
      simp only [Option.some.injEq, Prod.mk.injEq] at h
      obtain ⟨hv, hr⟩ := h
      subst hv; subst hr
      simp only [Bool.and_eq_true] at hd
      obtain ⟨⟨⟨h1, h2⟩, h3⟩, h4⟩ := hd
      have d1 := digitVal_le h1
      have d2 := digitVal_le h2
      have d3 := digitVal_le h3
      have d4 := digitVal_le h4
      refine ⟨by omega, ?_⟩
      unfold pad4
      have e1 : (1000 * digitVal c1 + 100 * digitVal c2 + 10 * digitVal c3 + digitVal c4) /
          1000 % 10 = digitVal c1 := by omega
      have e2 : (1000 * digitVal c1 + 100 * digitVal c2 + 10 * digitVal c3 + digitVal c4) /
          100 % 10 = digitVal c2 := by omega
      have e3 : (1000 * digitVal c1 + 100 * digitVal c2 + 10 * digitVal c3 + digitVal c4) /
          10 % 10 = digitVal c3 := by omega
      have e4 : (1000 * digitVal c1 + 100 * digitVal c2 + 10 * digitVal c3 + digitVal c4) %
          10 = digitVal c4 := by omega
      rw [e1, e2, e3, e4, padC_digitVal h1, padC_digitVal h2, padC_digitVal h3, padC_digitVal h4]
      simp
    · rw [if_neg hd] at h
      exact absurd h (by simp)

theorem lit_inv {c : Char} {cs rest : List Char} (h : lit c cs = some rest) : cs = c :: rest := by
  match cs with
  | [] => simp [lit] at h
  | c2 :: t =>
    rw [lit] at h
    by_cases hc : c2 = c
    · rw [if_pos hc] at h
      simp only [Option.some.injEq] at h
      rw [hc, h]
    · rw [if_neg hc] at h
      exact absurd h (by simp)

theorem readOffset_inv {cs : List Char} {off : Int} (h : readOffset cs = some off) :
    (cs = ['Z'] ∧ off = 0) ∨
    (∃ c hh mm, (c = '+' ∨ c = '-') ∧ hh ≤ 23 ∧ mm ≤ 59 ∧
      cs = c :: (pad2 hh ++ ':' :: pad2 mm) ∧
      off = (if c = '+' then ((hh * 60 + mm : Nat) : Int) else -((hh * 60 + mm : Nat) : Int))) := by
  match cs with
  | [] => simp [readOffset] at h
  | c :: rest =>
    rw [readOffset] at h
    by_cases hcz : c = 'Z'
    · rw [if_pos hcz] at h
      by_cases hr : rest = []
      · rw [if_pos hr] at h
        simp only [Option.some.injEq] at h
        exact Or.inl ⟨by rw [hcz, hr], h.symm⟩
      · rw [if_neg hr] at h
        exact absurd h (by simp)
    · rw [if_neg hcz] at h
      by_cases hpm : (c = '+' || c = '-') = true
      · rw [if_pos hpm] at h
        cases h2 : read2 rest with
        | none => simp only [h2] at h; exact Option.noConfusion h
        | some p =>
          obtain ⟨hh, rest2⟩ := p
          simp only [h2] at h
          cases h3 : lit ':' rest2 with
          | none => simp only [h3] at h; exact Option.noConfusion h
          | some rest3 =>
            simp only [h3] at h
            cases h4 : read2 rest3 with
            | none => simp only [h4] at h; exact Option.noConfusion h
            | some q =>
              obtain ⟨mm, rest4⟩ := q
              simp only [h4] at h
              by_cases hg : rest4 = [] ∧ hh ≤ 23 ∧ mm ≤ 59
              · rw [if_pos hg] at h
                simp only [Option.some.injEq] at h
                refine Or.inr ⟨c, hh, mm, ?_, hg.2.1, hg.2.2, ?_, h.symm⟩
                · simpa [Bool.or_eq_true, decide_eq_true_eq] using hpm
                · rw [(read2_inv h2).2, lit_inv h3, (read2_inv h4).2, hg.1]
                  simp
              · rw [if_neg hg] at h
                exact absurd h (by simp)
      · rw [if_neg hpm] at h
        exact absurd h (by simp)

theorem offsetChars_eq {cs : List Char} {off : Int} (h : readOffset cs = some off)
    (hz : off ≠ 0 ∨ cs = ['Z']) : offsetChars off = cs := by
  rcases readOffset_inv h with ⟨hc, ho⟩ | ⟨c, hh, mm, hc, hhh, hmm, hceq, hoff⟩
  · rw [hc, ho]; rfl
  · have hlen : cs ≠ ['Z'] := by
      rw [hceq]
      intro hbad
      have := congrArg List.length hbad
      simp [pad2] at this
    rcases hc with rfl | rfl
    · simp only [reduceIte] at hoff
      have hn : ((hh * 60 + mm : Nat) : Int) ≠ 0 := by
        rcases hz with h0 | hcs
        · rw [hoff] at h0; exact h0
        · exact absurd hcs hlen
      unfold offsetChars
      rw [hoff]
      rw [if_neg hn]
      have hpos : (0 : Int) < ((hh * 60 + mm : Nat) : Int) := by omega
      rw [if_pos hpos]
      have habs : ((hh * 60 + mm : Nat) : Int).natAbs = hh * 60 + mm := Int.natAbs_ofNat _
      rw [habs, hceq]
      have e1 : (hh * 60 + mm) / 60 = hh := by omega
      have e2 : (hh * 60 + mm) % 60 = mm := by omega
      rw [e1, e2]
    · rw [if_neg (show ¬ ('-' : Char) = '+' by decide)] at hoff
      have hn0 : (hh * 60 + mm : Nat) ≠ 0 := by
        intro hbad
        rcases hz with h0 | hcs
        · rw [hoff] at h0
          apply h0
          rw [hbad]
          rfl
        · exact absurd hcs hlen
      have hn : -((hh * 60 + mm : Nat) : Int) ≠ 0 := by omega
      unfold offsetChars
      rw [hoff]
      rw [if_neg hn]
      have hneg : ¬ (0 : Int) < -((hh * 60 + mm : Nat) : Int) := by omega
      rw [if_neg hneg]
      have habs : (-((hh * 60 + mm : Nat) : Int)).natAbs = hh * 60 + mm := by
        rw [Int.natAbs_neg, Int.natAbs_ofNat]
      rw [habs, hceq]
      have e1 : (hh * 60 + mm) / 60 = hh := by omega
      have e2 : (hh * 60 + mm) % 60 = mm := by omega
      rw [e1, e2]

theorem rfc3339ParseC_roundtrip {cs : List Char} {t : TimeRec}
    (hp : rfc3339ParseC cs = some t) (hfrac : ('.' : Char) ∉ cs)
    (hz : t.offMin ≠ 0 ∨ cs.getLast? = some 'Z') :
    rfc3339FormatC t = cs := by
  unfold rfc3339ParseC at hp
  split at hp
  · exact Option.noConfusion hp
  next y cs1 h1 =>
  split at hp
  · exact Option.noConfusion hp
  next cs2 h2 =>
  split at hp
  · exact Option.noConfusion hp
  next mo cs3 h3 =>
  split at hp
  · exact Option.noConfusion hp
  next cs4 h4 =>
  split at hp
  · exact Option.noConfusion hp
  next d cs5 h5 =>
  split at hp
  · exact Option.noConfusion hp
  next cs6 h6 =>
  split at hp
  · exact Option.noConfusion hp
  next h cs7 h7 =>
  split at hp
  · exact Option.noConfusion hp
  next cs8 h8 =>
  split at hp
  · exact Option.noConfusion hp
  next mi cs9 h9 =>
  split at hp
  · exact Option.noConfusion hp
  next cs10 h10 =>
  split at hp
  · exact Option.noConfusion hp
  next sec cs11 h11 =>
  split at hp
  · -- cs11 = [] : no offset designator, the parse cannot succeed
    simp [rfc3339Finish, readOffset] at hp
  next c csf =>
  split at hp
  · -- fractional branch contradicts the no-dot hypothesis
    next hc =>
    exfalso
    apply hfrac
    rw [(read4_inv h1).2, lit_inv h2, (read2_inv h3).2, lit_inv h4, (read2_inv h5).2,
      lit_inv h6, (read2_inv h7).2, lit_inv h8, (read2_inv h9).2, lit_inv h10,
      (read2_inv h11).2, hc]
    simp
  next hc =>
  unfold rfc3339Finish at hp
  split at hp
  · exact Option.noConfusion hp
  next off hoff =>
  split at hp
  · next hg =>
    have ht := Option.some.inj hp
    subst ht
    have hoffeq : offsetChars off = c :: csf := by
      apply offsetChars_eq hoff
      rcases readOffset_inv hoff with ⟨hcz, _⟩ | ⟨sg, hh2, mm2, hsg, hh23, hmm59, hcseq, _⟩
      · right; exact hcz
      · left
        rcases hz with h0 | hlast
        · exact h0
        · exfalso
          rw [(read4_inv h1).2, lit_inv h2, (read2_inv h3).2, lit_inv h4, (read2_inv h5).2,
            lit_inv h6, (read2_inv h7).2, lit_inv h8, (read2_inv h9).2, lit_inv h10,
            (read2_inv h11).2, hcseq] at hlast
          simp only [pad2, pad4, List.cons_append, List.nil_append, List.append_assoc,
            List.getLast?_cons_cons, List.getLast?_singleton, Option.some.injEq] at hlast
          have hb : mm2 % 10 ≤ 9 := by omega
          exact padC_ne_Z hb hlast
    unfold rfc3339FormatC
    dsimp only
    rw [hoffeq]
    rw [(read4_inv h1).2, lit_inv h2, (read2_inv h3).2, lit_inv h4, (read2_inv h5).2,
      lit_inv h6, (read2_inv h7).2, lit_inv h8, (read2_inv h9).2, lit_inv h10,
      (read2_inv h11).2]
    simp [List.append_assoc]
  · exact Option.noConfusion hp

/-- C5 counterexample: "2002-10-02T15:00:00+00:00" is a valid RFC3339
string without fractional seconds, `Set` accepts it, yet `String` renders
the zero offset as "Z", so the round trip is not the identity. -/
theorem time_roundtrip_counterexample :
    TimeSet none "2002-10-02T15:00:00+00:00" = (none, some ⟨2002, 10, 2, 15, 0, 0, 0, 0⟩) ∧
    TimeString (some (some ⟨2002, 10, 2, 15, 0, 0, 0, 0⟩)) = "2002-10-02T15:00:00Z" ∧
    "2002-10-02T15:00:00Z" ≠ "2002-10-02T15:00:00+00:00" :=
  ⟨rfl, rfl, by decide⟩

/-- C5 (amended): for every valid RFC3339 string without fractional seconds
whose zero UTC offset (if any) is written "Z", `Time.Set` succeeds and
`Time.String` returns exactly the input; a fractional-second input is
accepted but truncated on redisplay, so "2002-10-02T15:00:00.05Z"
round-trips to "2002-10-02T15:00:00Z". -/
theorem time_roundtrip_amended (s : String) (t : TimeRec) (f g : Option TimeRec)
    (hp : rfc3339Parse s = some t)
    (hfrac : ('.' : Char) ∉ s.data)
    (hz : t.offMin ≠ 0 ∨ s.data.getLast? = some 'Z') :
    TimeSet f s = (none, some t) ∧
    TimeString (some (some t)) = s ∧
    TimeSet g "2002-10-02T15:00:00.05Z" = (none, some ⟨2002, 10, 2, 15, 0, 0, 50000000, 0⟩) ∧
    TimeString (some (some ⟨2002, 10, 2, 15, 0, 0, 50000000, 0⟩)) = "2002-10-02T15:00:00Z" := by
  refine ⟨?_, ?_, rfl, rfl⟩
  · unfold TimeSet
    rw [hp]
  · show rfc3339Format t = s
    unfold rfc3339Format
    rw [rfc3339ParseC_roundtrip hp hfrac hz]

/-- Witness for the amended C5 at a concrete nonzero-offset input taken
from the repository's tests. -/
theorem time_roundtrip_amended_witness :
    TimeSet none "2002-10-02T10:00:00-05:00" = (none, some ⟨2002, 10, 2, 10, 0, 0, 0, -300⟩) ∧
    TimeString (some (some ⟨2002, 10, 2, 10, 0, 0, 0, -300⟩)) = "2002-10-02T10:00:00-05:00" ∧
    TimeSet none "2002-10-02T15:00:00.05Z" = (none, some ⟨2002, 10, 2, 15, 0, 0, 50000000, 0⟩) ∧
    TimeString (some (some ⟨2002, 10, 2, 15, 0, 0, 50000000, 0⟩)) = "2002-10-02T15:00:00Z" :=
  time_roundtrip_amended "2002-10-02T10:00:00-05:00" ⟨2002, 10, 2, 10, 0, 0, 0, -300⟩ none none
    rfl (by decide) (Or.inl (by decide))

/-- C3 counterexample: a failing `Set` does not reset the adapter to its
zero value; a previously parsed URL survives a failed `URL.Set`, and a
previously parsed time survives the failing `Time.Set` of empty input. -/
theorem url_set_failure_counterexample :
    URLSet none "foo.bar" = (none, some ⟨"", "", "foo.bar", ""⟩) ∧
    URLSet (some ⟨"", "", "foo.bar", ""⟩) "%" =
      (some "parsing url: parse \"%\": invalid URL escape", some ⟨"", "", "foo.bar", ""⟩) ∧
    some (⟨"", "", "foo.bar", ""⟩ : URLRec) ≠ (none : Option URLRec) ∧
    TimeSet (some ⟨2002, 10, 2, 15, 0, 0, 0, 0⟩) "" =
      (some "parsing time: cannot parse \"\" as RFC3339", some ⟨2002, 10, 2, 15, 0, 0, 0, 0⟩) ∧
    some (⟨2002, 10, 2, 15, 0, 0, 0, 0⟩ : TimeRec) ≠ (none : Option TimeRec) :=
  ⟨rfl, rfl, by decide, rfl, by decide⟩

/-- C3 (amended): `URL.Set` and `Time.Set` never modify the adapter on
parse failure (so from a zero-valued adapter a failed call leaves the zero
value, but a previously held value is retained, not reset);
`URL.Set("")` succeeds and holds the zero URL; `Time.Set("")` fails and
leaves the adapter unchanged; a successful non-empty `Set` holds exactly
the one parsed value. -/
theorem url_time_set_behaviour (f : Option URLRec) (g : Option TimeRec)
    (s1 s2 s3 s4 e : String) (u : URLRec) (t : TimeRec)
    (h1 : urlParse s1 = .error e)
    (h2 : urlParse s2 = .ok u)
    (h3 : rfc3339Parse s3 = none)
    (h4 : rfc3339Parse s4 = some t) :
    URLSet f s1 = (some ("parsing url: " ++ e), f) ∧
    URLSet f s2 = (none, some u) ∧
    URLSet f "" = (none, some ⟨"", "", "", ""⟩) ∧
    TimeSet g s3 = (some ("parsing time: cannot parse \"" ++ s3 ++ "\" as RFC3339"), g) ∧
    TimeSet g s4 = (none, some t) ∧
    TimeSet g "" = (some ("parsing time: cannot parse \"\" as RFC3339"), g) := by
  refine ⟨?_, ?_, rfl, ?_, ?_, rfl⟩
  · unfold URLSet; rw [h1]
  · unfold URLSet; rw [h2]
  · unfold TimeSet; rw [h3]
  · unfold TimeSet; rw [h4]

/-- Witness for the amended C3 at the repository's own test inputs. -/
theorem url_time_set_behaviour_witness :
    URLSet none "%" = (some ("parsing url: " ++ "parse \"%\": invalid URL escape"), none) ∧
    URLSet none "foo.bar" = (none, some ⟨"", "", "foo.bar", ""⟩) ∧
    URLSet none "" = (none, some ⟨"", "", "", ""⟩) ∧
    TimeSet none "x" = (some ("parsing time: cannot parse \"" ++ "x" ++ "\" as RFC3339"), none) ∧
    TimeSet none "2002-10-02T15:00:00Z" = (none, some ⟨2002, 10, 2, 15, 0, 0, 0, 0⟩) ∧
    TimeSet none "" = (some ("parsing time: cannot parse \"\" as RFC3339"), none) :=
  url_time_set_behaviour none none "%" "foo.bar" "x" "2002-10-02T15:00:00Z"
    "parse \"%\": invalid URL escape" ⟨"", "", "foo.bar", ""⟩ ⟨2002, 10, 2, 15, 0, 0, 0, 0⟩
    rfl rfl rfl rfl

/-- C9 counterexample: an empty-but-initialized list adapter renders as
"[]", not as the empty string. -/
theorem stringSlice_empty_render_counterexample :
    StringSliceString (some []) = "[]" ∧ "[]" ≠ "" ∧ IntSliceString (some []) = "[]" :=
  ⟨rfl, by decide, rfl⟩

/-- C9 (amended): `String()` is total on every adapter state; it returns ""
on a nil receiver for all four adapters and on a zero-valued `URL`/`Time`
adapter (nil inner pointer), while an empty-but-initialized list adapter
renders "[]". -/
theorem adapters_string_render :
    StringSliceString none = "" ∧ IntSliceString none = "" ∧
    URLString none = "" ∧ TimeString none = "" ∧
    URLString (some none) = "" ∧ TimeString (some none) = "" ∧
    StringSliceString (some []) = "[]" ∧ IntSliceString (some []) = "[]" :=
  ⟨rfl, rfl, rfl, rfl, rfl, rfl, rfl, rfl⟩

/-- C10: `URL.Get` and `Time.Get` dereference the inner pointer without a
nil guard: they return the underlying value exactly when the inner pointer
is non-nil, and on a zero-valued adapter they perform a nil dereference,
unlike `String`, which returns "" there. -/
theorem url_time_get_nil_deref (u : URLRec) (t : TimeRec) :
    URLGet (some u) = .val u ∧ TimeGet (some t) = .val t ∧
    URLGet none = GetRes.nilDeref ∧ TimeGet none = GetRes.nilDeref ∧
    URLString (some none) = "" ∧ TimeString (some none) = "" :=
  ⟨rfl, rfl, rfl, rfl, rfl, rfl⟩

/-! ## Case conversion

Modelled from the spec: the case-conversion collaborator (outside this
repository) that derives kebab-case, upper-snake-case and space-delimited
lower-case forms.  Words are split at the delimiters dash, underscore,
space and dot and at a lower-to-upper camel-case boundary. -/

/-- Word delimiter characters. -/
def isDelim (c : Char) : Bool := c = '-' || c = '_' || c = ' ' || c = '.'

/-- Uppercase ASCII letter test. -/
def isUpperC (c : Char) : Bool := 65 ≤ c.toNat && c.toNat ≤ 90

/-- Lowercase ASCII letter test. -/
def isLowerC (c : Char) : Bool := 97 ≤ c.toNat && c.toNat ≤ 122

/-- A camel-case word boundary: an uppercase letter after a lowercase
letter or digit. -/
def isBoundary (p c : Char) : Bool := isUpperC c && (isLowerC p || isDigitC p)

/-- ASCII lowercase conversion. -/
def toLowerC (c : Char) : Char := if isUpperC c then Char.ofNat (c.toNat + 32) else c

/-- ASCII uppercase conversion. -/
def toUpperC (c : Char) : Char := if isLowerC c then Char.ofNat (c.toNat - 32) else c

/-- Split into words; the accumulator holds the current word reversed, so
its head is the previous character. -/
def wordsGo : List Char → List Char → List (List Char)
  | [], w => if w.isEmpty then [] else [w.reverse]
  | c :: cs, w =>
    if isDelim c then (if w.isEmpty then [] else [w.reverse]) ++ wordsGo cs []
    else
      match w with
      | [] => wordsGo cs [c]
      | p :: _ => if isBoundary p c then w.reverse :: wordsGo cs [c] else wordsGo cs (c :: w)

/-- The words of a string. -/
def wordsOf (s : String) : List (List Char) := wordsGo s.data []

/-- Kebab-case conversion. -/
def toKebab (s : String) : String :=
  joinSep "-" ((wordsOf s).map (fun w => String.mk (w.map toLowerC)))

/-- Upper-snake-case conversion. -/
def toScreamingSnake (s : String) : String :=
  joinSep "_" ((wordsOf s).map (fun w => String.mk (w.map toUpperC)))

/-- Space-delimited lower-case conversion, used for derived usage text. -/
def toDelimitedLower (s : String) : String :=
  joinSep " " ((wordsOf s).map (fun w => String.mk (w.map toLowerC)))

example : toKebab "Mongo-Hosts" = "mongo-hosts" := rfl
example : toScreamingSnake "cool_Mongo_Hosts" = "COOL_MONGO_HOSTS" := rfl
example : toKebab "Hosts" = "hosts" := rfl
example : toDelimitedLower "Mongo Hosts" = "mongo hosts" := rfl

/-! ## Binder data model (source: act.go) -/

/-- The leaf kinds the binder dispatches on that the claims exercise; any
other field kind is carried by `kOther` and rejected as unsupported. -/
inductive Kind where
  | kBool
  | kString
  | kInt
  | kStringSlice
  | kIntSlice
  | kURL
  | kTime
  | kOther (desc : String)
deriving DecidableEq, Repr

/-- The four struct-tag annotations of a field; an absent annotation is the
empty string.  The source's "def" key is spelled `defTag`. -/
structure Tag where
  flag : String
  env : String
  help : String
  defTag : String
deriving DecidableEq, Repr

mutual
/-- A field of the target record: either a leaf bound to one flag, or a
nested record that the walk recurses into (URL and Time struct fields are
leaves, as in the source's adapter check).  The field list is its own
mutual inductive so that the walk is structurally recursive. -/
inductive CField where
  | leaf (name : String) (tag : Tag) (kind : Kind)
  | node (name : String) (sub : CFields)
/-- A list of record fields. -/
inductive CFields where
  | nil
  | cons (f : CField) (fs : CFields)
end

/-- A typed Go value held by a registered flag destination. -/
inductive GoVal where
  | vBool (b : Bool)
  | vString (s : String)
  | vInt (n : Int)
  | vStringSlice (l : List String)
  | vIntSlice (l : List Int)
  | vURL (u : Option URLRec)
  | vTime (t : Option TimeRec)
deriving DecidableEq, Repr

/-- Structured model of the error values of the package. -/
inductive GoErr where
  | invalidConfigType
  | unsupportedType (k : Kind)
  | valueErr (what : String) (value : String) (cause : String)
  | adapterErr (msg : String)
  | wrap (ctx : String) (e : GoErr)
  | helpErr
  | flagNotDefined (n : String)
  | flagNeedsArg (n : String)
  | badFlag (t : String)
deriving DecidableEq, Repr

/-- One registration with the flag collaborator: derived names, usage, the
chosen baseline text and its parsed value. -/
structure Reg where
  fieldName : String
  flagName : String
  envName : String
  usage : String
  baseline : String
  kind : Kind
  value : GoVal
deriving DecidableEq, Repr

/-- Source `flagName`: an explicit flag tag wins, else kebab-case of the
dash-joined prefix and field name. -/
def flagNameF (tag : Tag) (pfx fname : String) : String :=
  if tag.flag ≠ "" then tag.flag
  else toKebab (if pfx ≠ "" then pfx ++ "-" ++ fname else fname)

/-- Source `envVarName`: an explicit env tag wins, else upper-snake-case of
the command name, prefix and field name joined by underscores. -/
def envVarNameF (name : String) (tag : Tag) (pfx fname : String) : String :=
  if tag.env ≠ "" then tag.env
  else toScreamingSnake (if pfx ≠ "" then name ++ "_" ++ pfx ++ "_" ++ fname
    else name ++ "_" ++ fname)

/-- Source `usage`: an explicit help tag or the derived phrase, plus the
environment-name suffix. -/
def usageF (tag : Tag) (pfx fname env : String) : String :=
  if tag.help ≠ "" then tag.help ++ " (env " ++ env ++ ")"
  else toDelimitedLower (if pfx ≠ "" then pfx ++ " " ++ fname else fname) ++
    " (env " ++ env ++ ")"

/-- Source `newPrefix`: extend the dash-joined prefix by one field name. -/
def extendPfx (pfx fname : String) : String :=
  if pfx ≠ "" then pfx ++ "-" ++ fname else fname

/-- Modelled from the spec: `strconv.ParseBool` of the standard library,
accepting exactly the usual truthy and falsy spellings. -/
def parseBoolG (s : String) : Except String Bool :=
  if s = "1" ∨ s = "t" ∨ s = "T" ∨ s = "true" ∨ s = "TRUE" ∨ s = "True" then .ok true
  else if s = "0" ∨ s = "f" ∨ s = "F" ∨ s = "false" ∨ s = "FALSE" ∨ s = "False" then .ok false
  else .error ("strconv.ParseBool: parsing \"" ++ s ++ "\": invalid syntax")

/-- Source `parseValue` together with the per-kind helpers `parseBool`,
`parseInt`, `parseStringSlice`, `parseIntSlice`, `parseURL` and
`parseTime`: parse the baseline text for the field kind (an empty baseline
registers the kind's zero value without calling the fallible parser). -/
def parseValue (k : Kind) (value : String) : Except GoErr GoVal :=
  match k with
  | .kBool =>
    if value = "" then .ok (.vBool false)
    else
      match parseBoolG value with
      | .error e => .error (.valueErr "bool" value e)
      | .ok b => .ok (.vBool b)
  | .kString => .ok (.vString value)
  | .kInt =>
    if value = "" then .ok (.vInt 0)
    else
      match atoi value with
      | .error e => .error (.valueErr "int" value e)
      | .ok n => .ok (.vInt n)
  | .kStringSlice =>
    if value = "" then .ok (.vStringSlice [])
    else .ok (.vStringSlice (StringSliceSet [] value))
  | .kIntSlice =>
    if value = "" then .ok (.vIntSlice [])
    else
      match IntSliceSet [] value with
      | (some e, _) => .error (.adapterErr e)
      | (none, l) => .ok (.vIntSlice l)
  | .kURL =>
    if value = "" then .ok (.vURL none)
    else
      match URLSet none value with
      | (some e, _) => .error (.adapterErr e)
      | (none, u) => .ok (.vURL u)
  | .kTime =>
    if value = "" then .ok (.vTime none)
    else
      match TimeSet none value with
      | (some e, _) => .error (.adapterErr e)
      | (none, t) => .ok (.vTime t)
  | .kOther d => .error (.unsupportedType (.kOther d))

/-- The default-tag branch of the per-field body of source `parse`
(lines 109-111): register with the def annotation as baseline. -/
def parseLeafDef (name pfx fname : String) (tag : Tag) (k : Kind) : Except GoErr Reg :=
  match parseValue k tag.defTag with
  | .error e => .error (.wrap (fname ++ " def") e)
  | .ok gv => .ok ⟨fname, flagNameF tag pfx fname, envVarNameF name tag pfx fname,
      usageF tag pfx fname (envVarNameF name tag pfx fname), tag.defTag, k, gv⟩

/-- The per-leaf body of source `parse` (lines 100-111): consult the
environment lookup; its value is the baseline only when found and not in
help mode, otherwise the def annotation is. -/
def parseLeaf (name : String) (lookupEnv : String → Option String) (help : Bool)
    (pfx fname : String) (tag : Tag) (k : Kind) : Except GoErr Reg :=
  match lookupEnv (envVarNameF name tag pfx fname) with
  | some v =>
    if help = false then
      match parseValue k v with
      | .error e => .error (.wrap (fname ++ " env") e)
      | .ok gv => .ok ⟨fname, flagNameF tag pfx fname, envVarNameF name tag pfx fname,
          usageF tag pfx fname (envVarNameF name tag pfx fname), v, k, gv⟩
    else parseLeafDef name pfx fname tag k
  | none => parseLeafDef name pfx fname tag k

/-- The field loop of source `parse`: leaves register in declaration order,
nested records recurse depth-first with an extended prefix, and the first
error aborts the walk. -/
def parseFields (name : String) (lookupEnv : String → Option String) (help : Bool) :
    String → CFields → Except GoErr (List Reg)
  | _, .nil => .ok []
  | pfx, .cons (.leaf fname tag k) fs =>
    match parseLeaf name lookupEnv help pfx fname tag k with
    | .error e => .error e
    | .ok r =>
      match parseFields name lookupEnv help pfx fs with
      | .error e => .error e
      | .ok rs => .ok (r :: rs)
  | pfx, .cons (.node fname sub) fs =>
    match parseFields name lookupEnv help (extendPfx pfx fname) sub with
    | .error e => .error e
    | .ok rs1 =>
      match parseFields name lookupEnv help pfx fs with
      | .error e => .error e
      | .ok rs2 => .ok (rs1 ++ rs2)

/-- Source `parseHelp`: scan the token list for a help flag. -/
def helpRequested (flags : List String) : Bool :=
  flags.any (fun f => f = "--help" || f = "-help" || f = "--h" || f = "-h")

/-- The reflective shape of the target argument of `Parse`. -/
inductive Config where
  | ptrStruct (fields : CFields)
  | nilPtrStruct
  | ptrNonStruct
  | nonPtr
  | nilInterface

/-- Outcome of a call in this model: a value, a returned error, a runtime
panic, or process termination with an exit code. -/
inductive Res (α : Type) where
  | ok : α → Res α
  | err : GoErr → Res α
  | panicked : String → Res α
  | exited : Nat → Res α
deriving DecidableEq, Repr

/-- Source `parse` (lines 65-115): reject targets that are not pointers to
structs before touching any field; a non-nil struct pointer is walked.  A
nil pointer to a struct passes the kind test, and the reflective
`NumField` call on the zero `Value` then panics. -/
def parse (name : String) (lookupEnv : String → Option String) (flags : List String) :
    Config → Res (List Reg)
  | .ptrStruct fields =>
    match parseFields name lookupEnv (helpRequested flags) "" fields with
    | .ok regs => .ok regs
    | .error e => .err e
  | .nilPtrStruct => .panicked "reflect: call of reflect.Value.NumField on zero Value"
  | .ptrNonStruct => .err .invalidConfigType
  | .nonPtr => .err .invalidConfigType
  | .nilInterface => .err .invalidConfigType

/-! ## Flag-registration collaborator

Modelled from the spec: the out-of-scope flag-registration primitive
"parses a token list against all registrations, applying last-write-wins on
duplicate flags" and "recognizes the tokens -h, --h, -help and --help as a help trigger
producing a distinguished sentinel condition"; parsing stops at the first
non-flag token, an unknown flag or a malformed value is an error, and a
non-boolean flag may take its value from the following token. -/

/-- Classification of one command-line token. -/
inductive Tok where
  | stop
  | bad (t : String)
  | flagT (name : String) (valOpt : Option String)

/-- Split a flag body at the first equals sign. -/
def splitAtEq : List Char → List Char × Option (List Char)
  | [] => ([], none)
  | c :: cs =>
    if c = '=' then ([], some cs)
    else
      let (n, v) := splitAtEq cs
      (c :: n, v)

/-- Classify one token: strip one or two dashes, reject a malformed name,
split off an inline value. -/
def tokParse (t : String) : Tok :=
  match t.data with
  | '-' :: rest =>
    let rest2 := match rest with
      | '-' :: r => r
      | _ => rest
    match rest2 with
    | [] => .stop
    | c :: _ =>
      if c = '-' ∨ c = '=' then .bad t
      else
        match splitAtEq rest2 with
        | (n, none) => .flagT (String.mk n) none
        | (n, some v) => .flagT (String.mk n) (some (String.mk v))
  | _ => .stop

/-- The four help tokens. -/
def isHelpTok (t : String) : Bool := t = "--help" || t = "-help" || t = "--h" || t = "-h"

/-- Look up a registration by flag name. -/
def findReg : List Reg → String → Option Reg
  | [], _ => none
  | r :: rs, n => if r.flagName = n then some r else findReg rs n

/-- Replace the value of the named registration. -/
def updateReg : List Reg → String → GoVal → List Reg
  | [], _, _ => []
  | r :: rs, n, gv =>
    if r.flagName = n then { r with value := gv } :: rs else r :: updateReg rs n gv

/-- Apply a command-line override text to a registered destination, with
the adapter `Set` semantics of each kind. -/
def setRegVal (k : Kind) (cur : GoVal) (s : String) : Except GoErr GoVal :=
  match k, cur with
  | .kBool, _ =>
    match parseBoolG s with
    | .error e => .error (.adapterErr e)
    | .ok b => .ok (.vBool b)
  | .kString, _ => .ok (.vString s)
  | .kInt, _ =>
    match atoi s with
    | .error e => .error (.adapterErr e)
    | .ok n => .ok (.vInt n)
  | .kStringSlice, .vStringSlice l => .ok (.vStringSlice (StringSliceSet l s))
  | .kIntSlice, .vIntSlice l =>
    match IntSliceSet l s with
    | (some e, _) => .error (.adapterErr e)
    | (none, l2) => .ok (.vIntSlice l2)
  | .kURL, .vURL o =>
    match URLSet o s with
    | (some e, _) => .error (.adapterErr e)
    | (none, o2) => .ok (.vURL o2)
  | .kTime, .vTime o =>
    match TimeSet o s with
    | (some e, _) => .error (.adapterErr e)
    | (none, o2) => .ok (.vTime o2)
  | k, _ => .error (.unsupportedType k)

/-- Result of the collaborator's parse: an optional error together with the
registrations, which keep all successful updates made before a failure. -/
structure FParseRes where
  err : Option GoErr
  regs : List Reg
deriving DecidableEq, Repr

/-- The collaborator's parse pass: the token list drives the recursion and
the registrations are threaded through. -/
def flagSetParse : List String → List Reg → FParseRes
  | [], regs => ⟨none, regs⟩
  | tok :: rest, regs =>
    if isHelpTok tok then ⟨some .helpErr, regs⟩
    else
      match tokParse tok with
      | .stop => ⟨none, regs⟩
      | .bad t => ⟨some (.badFlag t), regs⟩
      | .flagT n valOpt =>
        match findReg regs n with
        | none => ⟨some (.flagNotDefined n), regs⟩
        | some r =>
          match valOpt with
          | some v =>
            match setRegVal r.kind r.value v with
            | .error e => ⟨some e, regs⟩
            | .ok gv => flagSetParse rest (updateReg regs n gv)
          | none =>
            if r.kind = .kBool then
              match setRegVal r.kind r.value "true" with
              | .error e => ⟨some e, regs⟩
              | .ok gv => flagSetParse rest (updateReg regs n gv)
            else
              match rest with
              | v :: rest2 =>
                match setRegVal r.kind r.value v with
                | .error e => ⟨some e, regs⟩
                | .ok gv => flagSetParse rest2 (updateReg regs n gv)
              | [] => ⟨some (.flagNeedsArg n), regs⟩

/-- Whether `errors.Is(err, flag.ErrHelp)` holds, through wrapping. -/
def errorsIsHelp : GoErr → Bool
  | .helpErr => true
  | .wrap _ e => errorsIsHelp e
  | _ => false

/-- Rendering of an error value, used by the panic policy. -/
def errMsg : GoErr → String
  | .invalidConfigType => "invalid config type"
  | .unsupportedType _ => "parsing value: type not supported"
  | .valueErr what value cause => "parsing " ++ what ++ " \"" ++ value ++ "\": " ++ cause
  | .adapterErr m => m
  | .wrap ctx e => ctx ++ ": " ++ errMsg e
  | .helpErr => "flag: help requested"
  | .flagNotDefined n => "flag provided but not defined: -" ++ n
  | .flagNeedsArg n => "flag needs an argument: -" ++ n
  | .badFlag t => "bad flag syntax: " ++ t

/-- The three error-handling policies of the source. -/
inductive ErrorHandling where
  | continueOnError
  | exitOnError
  | panicOnError
deriving DecidableEq, Repr

/-- Source `exit` (lines 418-442): under return-error, a help sentinel is
success and anything else is returned unchanged; under terminate-process,
help (also a detected help flag) exits 0 and other errors print and exit 2;
under abort, panic. -/
def exitFn (eh : ErrorHandling) (help : Bool) (regs : List Reg) : Option GoErr → Res (List Reg)
  | none => .ok regs
  | some e =>
    match eh with
    | .continueOnError => if errorsIsHelp e then .ok regs else .err e
    | .exitOnError => if help || errorsIsHelp e then .exited 0 else .exited 2
    | .panicOnError => .panicked (errMsg e)

/-- Source `Act.Parse` (lines 57-63): run the recursive walk, then the
collaborator's parse over the tokens, translating each outcome through the
error-handling policy.  The returned registrations are the final bound
field values. -/
def Parse (name : String) (lookupEnv : String → Option String) (eh : ErrorHandling)
    (config : Config) (flags : List String) : Res (List Reg) :=
  let help := helpRequested flags
  match parse name lookupEnv flags config with
  | .err e => exitFn eh help [] (some e)
  | .panicked m => .panicked m
  | .exited n => .exited n
  | .ok regs =>
    let fr := flagSetParse flags regs
    exitFn eh help fr.regs fr.err

/-! ## Spec-side name derivation -/

/-- The field paths of all leaves, in traversal order. -/
def leafPaths : CFields → List (List String)
  | .nil => []
  | .cons (.leaf n _ _) fs => [n] :: leafPaths fs
  | .cons (.node n sub) fs => (leafPaths sub).map (fun p => n :: p) ++ leafPaths fs

/-- Written from the spec's words: flag name = kebab-case of the
dash-joined field path, parent first. -/
def specFlagName (path : List String) : String := toKebab (joinSep "-" path)

/-- Written from the spec's words: environment name = upper-snake-case of
the underscore-joined command name and field path. -/
def specEnvName (name : String) (path : List String) : String :=
  toScreamingSnake (joinSep "_" (name :: path))

/-- The def annotations of all leaves, in traversal order. -/
def leafDefs : CFields → List String
  | .nil => []
  | .cons (.leaf _ tag _) fs => tag.defTag :: leafDefs fs
  | .cons (.node _ sub) fs => leafDefs sub ++ leafDefs fs

/-- No field carries a flag or env annotation. -/
def noNameTags : CFields → Bool
  | .nil => true
  | .cons (.leaf _ tag _) fs => tag.flag = "" && tag.env = "" && noNameTags fs
  | .cons (.node _ sub) fs => noNameTags sub && noNameTags fs

/-- All field names are nonempty, as Go identifiers are. -/
def namesNonempty : CFields → Bool
  | .nil => true
  | .cons (.leaf n _ _) fs => !(n = "") && namesNonempty fs
  | .cons (.node n sub) fs => !(n = "") && namesNonempty sub && namesNonempty fs

/-- Whether a token addresses the given flag name. -/
def mentionsFlag (tok fname : String) : Bool :=
  match tokParse tok with
  | .flagT n _ => n = fname
  | _ => false

/-! ## String helper lemmas -/

theorem dataAppend (a b : String) : (a ++ b).data = a.data ++ b.data := rfl

theorem strAppend_assoc (a b c : String) : a ++ b ++ c = a ++ (b ++ c) := by
  cases a with
  | mk d1 =>
    cases b with
    | mk d2 =>
      cases c with
      | mk d3 =>
        show String.mk (d1 ++ d2 ++ d3) = String.mk (d1 ++ (d2 ++ d3))
        rw [List.append_assoc]

theorem ne_empty_of_data_ne {s : String} (h : s.data ≠ []) : s ≠ "" := by
  intro hs
  exact h (by rw [hs])

theorem joinSep_cons_ne (sep x : String) {xs : List String} (h : xs ≠ []) :
    joinSep sep (x :: xs) = x ++ sep ++ joinSep sep xs := by
  cases xs with
  | nil => exact absurd rfl h
  | cons y t => rfl

theorem joinSep_append_single (sep fname : String) :
    ∀ (pp : List String), pp ≠ [] →
      joinSep sep (pp ++ [fname]) = joinSep sep pp ++ sep ++ fname
  | [], h => absurd rfl h
  | [x], _ => rfl
  | x :: y :: t, _ => by
    have ih := joinSep_append_single sep fname (y :: t) (by simp)
    show joinSep sep (x :: (y :: t ++ [fname])) = joinSep sep (x :: y :: t) ++ sep ++ fname
    rw [joinSep_cons_ne sep x (by simp), joinSep_cons_ne sep x (by simp : (y :: t) ≠ []), ih]
    simp [strAppend_assoc]

theorem joinSep_dash_ne_empty : ∀ (pp : List String), pp ≠ [] → (∀ q ∈ pp, q ≠ "") →
    joinSep "-" pp ≠ ""
  | [], h, _ => absurd rfl h
  | [x], _, hq => by simpa using hq x (by simp)
  | x :: y :: t, _, hq => by
    rw [joinSep_cons_ne "-" x (by simp)]
    apply ne_empty_of_data_ne
    rw [dataAppend, dataAppend]
    simp

/-! ## Normalization of delimiters for snake-case equality -/

/-- Replace every delimiter by an underscore. -/
def normC (c : Char) : Char := if isDelim c then '_' else c

theorem wordsGo_map_norm : ∀ (cs w : List Char), wordsGo (cs.map normC) w = wordsGo cs w := by
  intro cs
  induction cs with
  | nil => intro w; rfl
  | cons c cs ih =>
    intro w
    by_cases hd : isDelim c = true
    · have hnc : normC c = '_' := by unfold normC; rw [if_pos hd]
      simp only [List.map_cons, hnc, wordsGo]
      rw [if_pos (by decide : isDelim '_' = true), if_pos hd, ih]
    · have hnc : normC c = c := by unfold normC; rw [if_neg hd]
      simp only [List.map_cons, hnc, wordsGo]
      rw [if_neg hd, if_neg hd]
      cases w with
      | nil => exact ih [c]
      | cons p w2 =>
        dsimp only
        by_cases hb : isBoundary p c = true
        · rw [if_pos hb, if_pos hb, ih]
        · rw [if_neg hb, if_neg hb, ih]

theorem toScreamingSnake_congr {a b : String} (h : a.data.map normC = b.data.map normC) :
    toScreamingSnake a = toScreamingSnake b := by
  unfold toScreamingSnake wordsOf
  rw [← wordsGo_map_norm a.data [], h, wordsGo_map_norm]

theorem joinSep_data_norm : ∀ (pp : List String),
    (joinSep "-" pp).data.map normC = (joinSep "_" pp).data.map normC
  | [] => rfl
  | [x] => rfl
  | x :: y :: t => by
    have ih := joinSep_data_norm (y :: t)
    rw [joinSep_cons_ne "-" x (by simp), joinSep_cons_ne "_" x (by simp)]
    simp only [dataAppend, List.map_append, ih]
    rfl

theorem envName_join_eq (name fname : String) (pp : List String) (hpp : pp ≠ []) :
    toScreamingSnake (name ++ "_" ++ joinSep "-" pp ++ "_" ++ fname) =
    toScreamingSnake (joinSep "_" (name :: (pp ++ [fname]))) := by
  rw [joinSep_cons_ne "_" name (by simp [hpp]), joinSep_append_single "_" fname pp hpp]
  apply toScreamingSnake_congr
  simp only [dataAppend, List.map_append, joinSep_data_norm pp]
  simp [strAppend_assoc, dataAppend]


/-- The induction principle the walk proofs use: one case per shape of the
leading field. -/
theorem cfields_induction (motive : CFields → Prop)
    (hnil : motive .nil)
    (hleaf : ∀ fname tag k fs, motive fs → motive (.cons (.leaf fname tag k) fs))
    (hnode : ∀ fname sub fs, motive sub → motive fs →
      motive (.cons (.node fname sub) fs)) :
    ∀ fs, motive fs
  | .nil => hnil
  | .cons (.leaf fname tag k) fs =>
    hleaf fname tag k fs (cfields_induction motive hnil hleaf hnode fs)
  | .cons (.node fname sub) fs =>
    hnode fname sub fs (cfields_induction motive hnil hleaf hnode sub)
      (cfields_induction motive hnil hleaf hnode fs)

example : parseFields "cool" (fun _ => none) false ""
    (.cons (.leaf "A" ⟨"", "", "", ""⟩ .kString) .nil) =
    .ok [⟨"A", "a", "COOL_A", "a (env COOL_A)", "", .kString, .vString ""⟩] := rfl

example : parseFields "cool" (fun _ => none) false ""
    (.cons (.node "Mongo" (.cons (.leaf "Hosts" ⟨"", "", "", ""⟩ .kStringSlice) .nil)) .nil) =
    .ok [⟨"Hosts", "mongo-hosts", "COOL_MONGO_HOSTS", "mongo hosts (env COOL_MONGO_HOSTS)", "",
      .kStringSlice, .vStringSlice []⟩] := rfl

/-! ## Claims about Parse targets and help handling -/

/-- C7 counterexample: a nil pointer to a struct type is not a non-nil
pointer to a struct, yet `Parse` does not return `InvalidConfigType` for
it — the reflective walk panics instead. -/
theorem invalid_target_counterexample :
    Parse "cool" (fun _ => none) .continueOnError .nilPtrStruct [] =
      .panicked "reflect: call of reflect.Value.NumField on zero Value" ∧
    Parse "cool" (fun _ => none) .continueOnError .nilPtrStruct [] ≠
      Res.err GoErr.invalidConfigType :=
  ⟨rfl, by decide⟩

/-- C7 (amended): for every target that is not a pointer to a struct — a
non-pointer, a pointer to a non-struct, or a nil interface — `Parse` fails
with the `InvalidConfigType` error for every lookup function and token
list and performs no processing of the target; a nil pointer to a struct
type is not detected and crashes with a reflection panic instead. -/
theorem invalid_target_rejected (name : String) (lookupEnv : String → Option String)
    (flags : List String) (cfg : Config)
    (hbad : cfg = .ptrNonStruct ∨ cfg = .nonPtr ∨ cfg = .nilInterface) :
    parse name lookupEnv flags cfg = .err .invalidConfigType ∧
    Parse name lookupEnv .continueOnError cfg flags = .err .invalidConfigType ∧
    Parse name lookupEnv .continueOnError .nilPtrStruct flags =
      .panicked "reflect: call of reflect.Value.NumField on zero Value" := by
  rcases hbad with rfl | rfl | rfl <;> exact ⟨rfl, rfl, rfl⟩

/-- Witness for the amended C7 at each concrete bad target. -/
theorem invalid_target_rejected_witness :
    parse "cool" (fun _ => none) ["-x"] .nonPtr = .err .invalidConfigType ∧
    Parse "cool" (fun _ => none) .continueOnError .nonPtr ["-x"] = .err .invalidConfigType ∧
    Parse "cool" (fun _ => none) .continueOnError .nilPtrStruct ["-x"] =
      .panicked "reflect: call of reflect.Value.NumField on zero Value" :=
  invalid_target_rejected "cool" (fun _ => none) ["-x"] .nonPtr (Or.inr (Or.inl rfl))

theorem exitFn_ok_inv {eh : ErrorHandling} {help : Bool} {rs regs : List Reg}
    {eo : Option GoErr} (h : exitFn eh help rs eo = .ok regs) : regs = rs := by
  cases eo with
  | none => exact (Res.ok.inj h).symm
  | some e =>
    unfold exitFn at h
    dsimp only at h
    cases eh with
    | continueOnError =>
      dsimp only at h
      by_cases hh : errorsIsHelp e = true
      · rw [if_pos hh] at h
        exact (Res.ok.inj h).symm
      · rw [if_neg hh] at h
        exact absurd h (by simp)
    | exitOnError =>
      dsimp only at h
      by_cases hh : (help || errorsIsHelp e) = true
      · rw [if_pos hh] at h
        exact absurd h (by simp)
      · rw [if_neg hh] at h
        exact absurd h (by simp)
    | panicOnError => exact absurd h (by simp)

/-- C8: with the return-error policy, `Parse` of a valid record with the
token list ["-h"] succeeds with no error (the collaborator's help sentinel
is translated to success), while every non-help error is propagated to the
caller unchanged by the exit translation. -/
theorem help_returns_no_error (name : String) (lookupEnv : String → Option String)
    (fs : CFields) (regs : List Reg)
    (hok : parse name lookupEnv ["-h"] (.ptrStruct fs) = .ok regs) :
    Parse name lookupEnv .continueOnError (.ptrStruct fs) ["-h"] = .ok regs ∧
    (∀ (help : Bool) (rs : List Reg) (e : GoErr), errorsIsHelp e = false →
      exitFn .continueOnError help rs (some e) = .err e) := by
  constructor
  · unfold Parse
    simp only [hok]
    rw [flagSetParse]
    rfl
  · intro help rs e he
    unfold exitFn
    dsimp only
    rw [he]
    rfl

/-- Witness for C8 at a one-field record. -/
theorem help_returns_no_error_witness :
    Parse "cool" (fun _ => none) .continueOnError
      (.ptrStruct (.cons (.leaf "Port" ⟨"", "", "", ""⟩ .kString) .nil)) ["-h"] =
      .ok [⟨"Port", "port", "COOL_PORT", "port (env COOL_PORT)", "", .kString, .vString ""⟩] :=
  (help_returns_no_error "cool" (fun _ => none)
    (.cons (.leaf "Port" ⟨"", "", "", ""⟩ .kString) .nil)
    [⟨"Port", "port", "COOL_PORT", "port (env COOL_PORT)", "", .kString, .vString ""⟩] rfl).1

/-! ## Help mode uses only the default annotations (C2) -/

theorem parseLeaf_help (name : String) (lookupEnv : String → Option String)
    (pfx fname : String) (tag : Tag) (k : Kind) :
    parseLeaf name lookupEnv true pfx fname tag k = parseLeafDef name pfx fname tag k := by
  unfold parseLeaf
  cases h : lookupEnv (envVarNameF name tag pfx fname) with
  | none => rfl
  | some v => rfl

theorem parseFields_help (name : String) (l1 l2 : String → Option String) :
    ∀ (fs : CFields) (pfx : String),
      parseFields name l1 true pfx fs = parseFields name l2 true pfx fs := by
  refine cfields_induction
    (fun fs => ∀ pfx, parseFields name l1 true pfx fs = parseFields name l2 true pfx fs)
    ?_ ?_ ?_
  · intro pfx
    rfl
  · intro fname tag k fs ih pfx
    simp only [parseFields]
    rw [parseLeaf_help name l1, parseLeaf_help name l2, ih pfx]
  · intro fname sub fs ihsub ihfs pfx
    simp only [parseFields]
    rw [ihsub, ihfs]

theorem parseLeafDef_ok_fields {name pfx fname : String} {tag : Tag} {k : Kind} {r : Reg}
    (h : parseLeafDef name pfx fname tag k = .ok r) :
    r.baseline = tag.defTag ∧ r.flagName = flagNameF tag pfx fname ∧
    r.envName = envVarNameF name tag pfx fname := by
  unfold parseLeafDef at h
  cases hv : parseValue k tag.defTag with
  | error e =>
    simp only [hv] at h
    exact Except.noConfusion h
  | ok gv =>
    simp only [hv, Except.ok.injEq] at h
    subst h
    exact ⟨rfl, rfl, rfl⟩

theorem parseFields_baselines (name : String) (lookupEnv : String → Option String) :
    ∀ (fs : CFields) (pfx : String) (regs : List Reg),
      parseFields name lookupEnv true pfx fs = .ok regs →
      regs.map Reg.baseline = leafDefs fs := by
  refine cfields_induction
    (fun fs => ∀ pfx regs, parseFields name lookupEnv true pfx fs = .ok regs →
      regs.map Reg.baseline = leafDefs fs) ?_ ?_ ?_
  · intro pfx regs h
    simp only [parseFields, Except.ok.injEq] at h
    subst h
    rfl
  · intro fname tag k fs ih pfx regs h
    simp only [parseFields] at h
    rw [parseLeaf_help name lookupEnv] at h
    cases hd : parseLeafDef name pfx fname tag k with
    | error e =>
      simp only [hd] at h
      exact Except.noConfusion h
    | ok r =>
      simp only [hd] at h
      cases hf : parseFields name lookupEnv true pfx fs with
      | error e =>
        simp only [hf] at h
        exact Except.noConfusion h
      | ok rs =>
        simp only [hf, Except.ok.injEq] at h
        subst h
        simp only [List.map_cons, leafDefs]
        rw [(parseLeafDef_ok_fields hd).1, ih pfx rs hf]
  · intro fname sub fs ihsub ihfs pfx regs h
    simp only [parseFields] at h
    cases hs : parseFields name lookupEnv true (extendPfx pfx fname) sub with
    | error e =>
      simp only [hs] at h
      exact Except.noConfusion h
    | ok rs1 =>
      simp only [hs] at h
      cases hf : parseFields name lookupEnv true pfx fs with
      | error e =>
        simp only [hf] at h
        exact Except.noConfusion h
      | ok rs2 =>
        simp only [hf, Except.ok.injEq] at h
        subst h
        simp only [List.map_append, leafDefs]
        rw [ihsub (extendPfx pfx fname) rs1 hs, ihfs pfx rs2 hf]

/-- C2: if the token list contains a help flag, the environment lookup
never influences any registered baseline — the walk's result is identical
for every lookup function — and every registered baseline is the field's
def annotation text. -/
theorem help_mode_ignores_env (name : String) (l1 l2 : String → Option String)
    (flags : List String) (fs : CFields) (regs : List Reg)
    (hh : helpRequested flags = true)
    (hok : parse name l1 flags (.ptrStruct fs) = .ok regs) :
    parse name l2 flags (.ptrStruct fs) = .ok regs ∧
    regs.map Reg.baseline = leafDefs fs := by
  unfold parse at hok ⊢
  dsimp only at hok ⊢
  rw [hh] at hok ⊢
  cases hf : parseFields name l1 true "" fs with
  | error e =>
    simp only [hf] at hok
    exact absurd hok (by simp)
  | ok rs =>
    simp only [hf, Res.ok.injEq] at hok
    subst hok
    constructor
    · rw [parseFields_help name l2 l1 fs "", hf]
    · exact parseFields_baselines name l1 fs "" rs hf

/-- Witness for C2: with help requested, a lookup that would return "7"
for every name and the empty lookup register the same baseline "5" from
the def annotation. -/
theorem help_mode_ignores_env_witness :
    parse "cool" (fun _ => none) ["-h"]
      (.ptrStruct (.cons (.leaf "Port" ⟨"", "", "", "5"⟩ .kInt) .nil)) =
      .ok [⟨"Port", "port", "COOL_PORT", "port (env COOL_PORT)", "5", .kInt, .vInt 5⟩] ∧
    [(⟨"Port", "port", "COOL_PORT", "port (env COOL_PORT)", "5", .kInt, .vInt 5⟩ : Reg)].map
      Reg.baseline = leafDefs (.cons (.leaf "Port" ⟨"", "", "", "5"⟩ .kInt) .nil) :=
  help_mode_ignores_env "cool" (fun _ => some "7") (fun _ => none) ["-h"]
    (.cons (.leaf "Port" ⟨"", "", "", "5"⟩ .kInt) .nil)
    [⟨"Port", "port", "COOL_PORT", "port (env COOL_PORT)", "5", .kInt, .vInt 5⟩]
    (by decide) rfl

/-! ## Precedence of environment over default (C1) -/

theorem findReg_update_ne (regs : List Reg) (n fname : String) (gv : GoVal)
    (hne : n ≠ fname) :
    findReg (updateReg regs n gv) fname = findReg regs fname := by
  induction regs with
  | nil => rfl
  | cons r rs ih =>
    unfold updateReg
    by_cases hr : r.flagName = n
    · rw [if_pos hr]
      unfold findReg
      have hne2 : ¬ (r.flagName = fname) := fun hf => hne (hr.symm.trans hf)
      rw [if_neg hne2, if_neg hne2]
    · rw [if_neg hr]
      unfold findReg
      by_cases hf : r.flagName = fname
      · rw [if_pos hf, if_pos hf]
      · rw [if_neg hf, if_neg hf]
        exact ih

theorem flagSetParse_preserves (fname : String) :
    ∀ (toks : List String) (regs : List Reg),
      (∀ tk ∈ toks, mentionsFlag tk fname = false) →
      findReg (flagSetParse toks regs).regs fname = findReg regs fname
  | [], regs, _ => by rw [flagSetParse]
  | tok :: rest, regs, hm => by
    rw [flagSetParse]
    by_cases hh : isHelpTok tok = true
    · rw [if_pos hh]
    · rw [if_neg hh]
      cases ht : tokParse tok with
      | stop => simp only
      | bad t => simp only
      | flagT n valOpt =>
        simp only
        cases hf : findReg regs n with
        | none => simp only
        | some r =>
          simp only
          have hnf : n ≠ fname := by
            have hmt := hm tok (by simp)
            unfold mentionsFlag at hmt
            rw [ht] at hmt
            simpa using hmt
          cases valOpt with
          | some v =>
            simp only
            cases hs : setRegVal r.kind r.value v with
            | error e => simp only
            | ok gv =>
              simp only
              rw [flagSetParse_preserves fname rest (updateReg regs n gv)
                (fun tk htk => hm tk (by simp [htk]))]
              exact findReg_update_ne regs n fname gv hnf
          | none =>
            simp only
            by_cases hb : r.kind = .kBool
            · rw [if_pos hb]
              cases hs : setRegVal r.kind r.value "true" with
              | error e => simp only
              | ok gv =>
                simp only
                rw [flagSetParse_preserves fname rest (updateReg regs n gv)
                  (fun tk htk => hm tk (by simp [htk]))]
                exact findReg_update_ne regs n fname gv hnf
            · rw [if_neg hb]
              cases rest with
              | nil => simp only
              | cons v rest2 =>
                simp only
                cases hs : setRegVal r.kind r.value v with
                | error e => simp only
                | ok gv =>
                  simp only
                  rw [flagSetParse_preserves fname rest2 (updateReg regs n gv)
                    (fun tk htk => hm tk (by simp [htk]))]
                  exact findReg_update_ne regs n fname gv hnf

/-- C1: for an int leaf with def annotation "1", if the environment lookup
returns ("2", true) for the derived environment name, no token list entry
addresses the derived flag name and no help flag is present, the final
bound value is 2; with the lookup reporting the variable absent it is 1. -/
theorem env_overrides_default (name fname : String) (tag : Tag)
    (l1 l2 : String → Option String) (flags : List String) (regs1 regs2 : List Reg)
    (hdef : tag.defTag = "1")
    (henv : l1 (envVarNameF name tag "" fname) = some "2")
    (habs : l2 (envVarNameF name tag "" fname) = none)
    (hh : helpRequested flags = false)
    (hm : ∀ tk ∈ flags, mentionsFlag tk (flagNameF tag "" fname) = false)
    (hok1 : Parse name l1 .continueOnError
      (.ptrStruct (.cons (.leaf fname tag .kInt) .nil)) flags = .ok regs1)
    (hok2 : Parse name l2 .continueOnError
      (.ptrStruct (.cons (.leaf fname tag .kInt) .nil)) flags = .ok regs2) :
    (findReg regs1 (flagNameF tag "" fname)).map Reg.value = some (.vInt 2) ∧
    (findReg regs2 (flagNameF tag "" fname)).map Reg.value = some (.vInt 1) := by
  have hw1 : parse name l1 flags (.ptrStruct (.cons (.leaf fname tag .kInt) .nil)) =
      .ok [⟨fname, flagNameF tag "" fname, envVarNameF name tag "" fname,
        usageF tag "" fname (envVarNameF name tag "" fname), "2", .kInt, .vInt 2⟩] := by
    unfold parse
    dsimp only
    rw [hh]
    simp only [parseFields, parseLeaf, henv]
    rfl
  have hw2 : parse name l2 flags (.ptrStruct (.cons (.leaf fname tag .kInt) .nil)) =
      .ok [⟨fname, flagNameF tag "" fname, envVarNameF name tag "" fname,
        usageF tag "" fname (envVarNameF name tag "" fname), "1", .kInt, .vInt 1⟩] := by
    unfold parse
    dsimp only
    rw [hh]
    simp only [parseFields, parseLeaf, habs, parseLeafDef, hdef]
    rfl
  constructor
  · unfold Parse at hok1
    simp only [hw1] at hok1
    rw [exitFn_ok_inv hok1,
      flagSetParse_preserves (flagNameF tag "" fname) flags _ hm]
    simp [findReg]
  · unfold Parse at hok2
    simp only [hw2] at hok2
    rw [exitFn_ok_inv hok2,
      flagSetParse_preserves (flagNameF tag "" fname) flags _ hm]
    simp [findReg]

/-- Witness for C1 at command name cool and field Port, with the empty
token list. -/
theorem env_overrides_default_witness :
    (findReg [⟨"Port", "port", "COOL_PORT", "port (env COOL_PORT)", "2", .kInt, .vInt 2⟩]
      (flagNameF ⟨"", "", "", "1"⟩ "" "Port")).map Reg.value = some (.vInt 2) ∧
    (findReg [⟨"Port", "port", "COOL_PORT", "port (env COOL_PORT)", "1", .kInt, .vInt 1⟩]
      (flagNameF ⟨"", "", "", "1"⟩ "" "Port")).map Reg.value = some (.vInt 1) :=
  env_overrides_default "cool" "Port" ⟨"", "", "", "1"⟩
    (fun n => if n = "COOL_PORT" then some "2" else none) (fun _ => none) []
    [⟨"Port", "port", "COOL_PORT", "port (env COOL_PORT)", "2", .kInt, .vInt 2⟩]
    [⟨"Port", "port", "COOL_PORT", "port (env COOL_PORT)", "1", .kInt, .vInt 1⟩]
    rfl rfl rfl rfl (by simp) rfl rfl

/-! ## Derived flag and environment names (C6) -/

theorem parseLeaf_ok_names {name : String} {lookupEnv : String → Option String} {help : Bool}
    {pfx fname : String} {tag : Tag} {k : Kind} {r : Reg}
    (h : parseLeaf name lookupEnv help pfx fname tag k = .ok r) :
    r.flagName = flagNameF tag pfx fname ∧ r.envName = envVarNameF name tag pfx fname := by
  unfold parseLeaf at h
  cases hl : lookupEnv (envVarNameF name tag pfx fname) with
  | none =>
    simp only [hl] at h
    exact (parseLeafDef_ok_fields h).2
  | some v =>
    simp only [hl] at h
    by_cases hh : help = false
    · rw [if_pos hh] at h
      cases hv : parseValue k v with
      | error e =>
        simp only [hv] at h
        exact Except.noConfusion h
      | ok gv =>
        simp only [hv, Except.ok.injEq] at h
        subst h
        exact ⟨rfl, rfl⟩
    · rw [if_neg hh] at h
      exact (parseLeafDef_ok_fields h).2

theorem flagName_spec (tag : Tag) (fname : String) (pp : List String)
    (ht : tag.flag = "") (hq : ∀ q ∈ pp, q ≠ "") :
    flagNameF tag (joinSep "-" pp) fname = specFlagName (pp ++ [fname]) := by
  unfold flagNameF specFlagName
  rw [if_neg (by simp [ht])]
  cases pp with
  | nil => rfl
  | cons x t =>
    rw [if_pos (by
      simpa using joinSep_dash_ne_empty (x :: t) (by simp) hq)]
    rw [joinSep_append_single "-" fname (x :: t) (by simp)]

theorem envName_spec (name : String) (tag : Tag) (fname : String) (pp : List String)
    (ht : tag.env = "") (hq : ∀ q ∈ pp, q ≠ "") :
    envVarNameF name tag (joinSep "-" pp) fname = specEnvName name (pp ++ [fname]) := by
  unfold envVarNameF specEnvName
  rw [if_neg (by simp [ht])]
  cases pp with
  | nil => rfl
  | cons x t =>
    rw [if_pos (by simpa using joinSep_dash_ne_empty (x :: t) (by simp) hq)]
    exact envName_join_eq name fname (x :: t) (by simp)

theorem extendPfx_join (fname : String) (pp : List String) :
    extendPfx (joinSep "-" pp) fname = joinSep "-" (pp ++ [fname]) ∨
    (joinSep "-" pp = "" ∧ pp ≠ []) := by
  unfold extendPfx
  cases pp with
  | nil => left; rfl
  | cons x t =>
    by_cases hp : joinSep "-" (x :: t) ≠ ""
    · left
      rw [if_pos hp, joinSep_append_single "-" fname (x :: t) (by simp)]
    · right
      push_neg at hp
      exact ⟨hp, by simp⟩

theorem parseFields_names (name : String) (lookupEnv : String → Option String) (help : Bool) :
    ∀ (fs : CFields) (pp : List String) (regs : List Reg),
      noNameTags fs = true → namesNonempty fs = true → (∀ q ∈ pp, q ≠ "") →
      parseFields name lookupEnv help (joinSep "-" pp) fs = .ok regs →
      regs.map (fun r => (r.flagName, r.envName)) =
        (leafPaths fs).map (fun p => (specFlagName (pp ++ p), specEnvName name (pp ++ p))) := by
  refine cfields_induction
    (fun fs => ∀ pp regs, noNameTags fs = true → namesNonempty fs = true →
      (∀ q ∈ pp, q ≠ "") →
      parseFields name lookupEnv help (joinSep "-" pp) fs = .ok regs →
      regs.map (fun r => (r.flagName, r.envName)) =
        (leafPaths fs).map (fun p => (specFlagName (pp ++ p), specEnvName name (pp ++ p))))
    ?_ ?_ ?_
  · intro pp regs _ _ _ h
    simp only [parseFields, Except.ok.injEq] at h
    subst h
    rfl
  · intro fname tag k fs ih pp regs hnt hne hq h
    simp only [noNameTags, Bool.and_eq_true, decide_eq_true_eq] at hnt
    simp only [namesNonempty, Bool.and_eq_true, Bool.not_eq_eq_eq_not, Bool.not_true,
      decide_eq_false_iff_not] at hne
    simp only [parseFields] at h
    cases hl : parseLeaf name lookupEnv help (joinSep "-" pp) fname tag k with
    | error e =>
      simp only [hl] at h
      exact Except.noConfusion h
    | ok r =>
      simp only [hl] at h
      cases hf : parseFields name lookupEnv help (joinSep "-" pp) fs with
      | error e =>
        simp only [hf] at h
        exact Except.noConfusion h
      | ok rs =>
        simp only [hf, Except.ok.injEq] at h
        subst h
        simp only [List.map_cons, leafPaths]
        have hnames := parseLeaf_ok_names hl
        rw [hnames.1, hnames.2, flagName_spec tag fname pp hnt.1.1 hq,
          envName_spec name tag fname pp hnt.1.2 hq,
          ih pp rs hnt.2 hne.2 hq hf]
  · intro fname sub fs ihsub ihfs pp regs hnt hne hq h
    simp only [noNameTags, Bool.and_eq_true] at hnt
    simp only [namesNonempty, Bool.and_eq_true, Bool.not_eq_eq_eq_not, Bool.not_true,
      decide_eq_false_iff_not] at hne
    simp only [parseFields] at h
    have hext : extendPfx (joinSep "-" pp) fname = joinSep "-" (pp ++ [fname]) := by
      rcases extendPfx_join fname pp with he | ⟨he, hne2⟩
      · exact he
      · exact absurd he (joinSep_dash_ne_empty pp hne2 hq)
    rw [hext] at h
    cases hs : parseFields name lookupEnv help (joinSep "-" (pp ++ [fname])) sub with
    | error e =>
      simp only [hs] at h
      exact Except.noConfusion h
    | ok rs1 =>
      simp only [hs] at h
      cases hf : parseFields name lookupEnv help (joinSep "-" pp) fs with
      | error e =>
        simp only [hf] at h
        exact Except.noConfusion h
      | ok rs2 =>
        simp only [hf, Except.ok.injEq] at h
        subst h
        have hq2 : ∀ q ∈ pp ++ [fname], q ≠ "" := by
          intro q hqm
          rcases List.mem_append.1 hqm with hmem | hmem
          · exact hq q hmem
          · simp only [List.mem_singleton] at hmem
            rw [hmem]
            exact hne.1.1
        simp only [List.map_append, leafPaths]
        rw [ihsub (pp ++ [fname]) rs1 hnt.1 hne.1.2 hq2 hs, ihfs pp rs2 hnt.2 hne.2 hq hf,
          List.map_map]
        congr 1
        apply List.map_congr_left
        intro p _
        simp only [Function.comp_apply, List.append_assoc, List.singleton_append]

/-- C6: with no flag or env annotations, every leaf registers under the
kebab-case of its dash-joined field path as flag name and the
upper-snake-case of the underscore-joined command name and field path as
environment name, deterministically for every field path. -/
theorem derived_names (name : String) (lookupEnv : String → Option String)
    (flags : List String) (fs : CFields) (regs : List Reg)
    (hnt : noNameTags fs = true) (hne : namesNonempty fs = true)
    (hok : parse name lookupEnv flags (.ptrStruct fs) = .ok regs) :
    regs.map (fun r => (r.flagName, r.envName)) =
      (leafPaths fs).map (fun p => (specFlagName p, specEnvName name p)) := by
  unfold parse at hok
  dsimp only at hok
  cases hf : parseFields name lookupEnv (helpRequested flags) "" fs with
  | error e =>
    simp only [hf] at hok
    exact absurd hok (by simp)
  | ok rs =>
    simp only [hf, Res.ok.injEq] at hok
    subst hok
    have hmain := parseFields_names name lookupEnv (helpRequested flags) fs [] rs hnt hne
      (by simp) hf
    simpa using hmain

/-- Witness for C6 at the spec's example: command cool, leaf Hosts nested
under Mongo, giving flag mongo-hosts and environment COOL_MONGO_HOSTS. -/
theorem derived_names_witness :
    ([⟨"Hosts", "mongo-hosts", "COOL_MONGO_HOSTS", "mongo hosts (env COOL_MONGO_HOSTS)", "",
      .kStringSlice, .vStringSlice []⟩] : List Reg).map (fun r => (r.flagName, r.envName)) =
      (leafPaths (.cons (.node "Mongo" (.cons (.leaf "Hosts" ⟨"", "", "", ""⟩ .kStringSlice)
        .nil)) .nil)).map
        (fun p => (specFlagName p, specEnvName "cool" p)) ∧
    (leafPaths (.cons (.node "Mongo" (.cons (.leaf "Hosts" ⟨"", "", "", ""⟩ .kStringSlice)
      .nil)) .nil)).map (fun p => (specFlagName p, specEnvName "cool" p)) =
      [("mongo-hosts", "COOL_MONGO_HOSTS")] :=
  ⟨derived_names "cool" (fun _ => none) []
    (.cons (.node "Mongo" (.cons (.leaf "Hosts" ⟨"", "", "", ""⟩ .kStringSlice) .nil)) .nil)
    [⟨"Hosts", "mongo-hosts", "COOL_MONGO_HOSTS", "mongo hosts (env COOL_MONGO_HOSTS)", "",
      .kStringSlice, .vStringSlice []⟩] rfl rfl rfl, rfl⟩
